import Mathlib

/-
Verification development for the `todo` task-manager core (src/app.rs).

Strings are modelled as lists of characters (the inputs of interest are
ASCII, on which Rust's str operations agree with the character-wise
models below).  Calendar instants are modelled by a day number and a
time of day; day 0 is chosen to be 2024-01-01, a Monday, so that
chrono's `num_days_from_monday` is the day number modulo 7, and adding
`chrono::Duration::days(k)` is adding `k` to the day number.
-/

namespace Todo

abbrev Str := List Char

/-- ASCII lower-casing, the restriction of Rust's `str::to_lowercase`. -/
def toLowerStr (s : Str) : Str := s.map Char.toLower

/-- Rust `str::contains` for a literal text pattern. -/
def containsStr (s pat : Str) : Bool :=
  if pat.isPrefixOf s then true
  else
    match s with
    | [] => false
    | _ :: tl => containsStr tl pat

/-- Rust `str::trim`: drop leading and trailing whitespace. -/
def trimStr (s : Str) : Str :=
  ((s.dropWhile Char.isWhitespace).reverse.dropWhile Char.isWhitespace).reverse

/-- Worker for `replaceStr`, structurally recursive on a fuel bound on the
length of the text being scanned.  On a match of `p :: ps` it emits `rep`
and resumes after the matched span, exactly the left-to-right
non-overlapping scan of Rust's `str::replace`. -/
def replaceFuel (p : Char) (ps rep : Str) : Nat → Str → Str
  | _, [] => []
  | 0, s => s
  | fuel + 1, c :: cs =>
    if (p :: ps).isPrefixOf (c :: cs) then
      rep ++ replaceFuel p ps rep fuel (cs.drop ps.length)
    else
      c :: replaceFuel p ps rep fuel cs

/-- Rust `str::replace` (every non-overlapping occurrence, scanning left to
right).  The empty-pattern case never arises in the program. -/
def replaceStr (s pat rep : Str) : Str :=
  match pat with
  | [] => s
  | p :: ps => replaceFuel p ps rep s.length s

/-- Worker for `splitWs`; the second argument is the current word, reversed. -/
def splitWsGo : Str → Str → List Str
  | [], w => if w.isEmpty then [] else [w.reverse]
  | c :: cs, w =>
    if c.isWhitespace then
      if w.isEmpty then splitWsGo cs [] else w.reverse :: splitWsGo cs []
    else
      splitWsGo cs (c :: w)

/-- Rust `str::split_whitespace`: the non-empty maximal runs of
non-whitespace characters. -/
def splitWs (s : Str) : List Str := splitWsGo s []

/-- chrono `NaiveTime` restricted to whole seconds (all times built by the
program have zero sub-second part, and the reference instant's sub-second
part never influences the comparisons the program makes). -/
structure Time where
  hour : Nat
  minute : Nat
  second : Nat
deriving DecidableEq, Repr

/-- The `<=` comparison of chrono `NaiveTime` (lexicographic). -/
def Time.leb (a b : Time) : Bool :=
  a.hour < b.hour ||
    (a.hour == b.hour &&
      (a.minute < b.minute || (a.minute == b.minute && a.second ≤ b.second)))

/-- A local date-time: a day number (day 0 = 2024-01-01, a Monday) and a
time of day. -/
structure Instant where
  date : Nat
  time : Time
deriving DecidableEq, Repr

/-! ## The time-of-day extractor (`extract_time_from_text`)

The six regex patterns of the source are modelled by explicit matchers.
`\b` is a word boundary, `\d` a decimal digit, `\s` whitespace; each
matcher reports the length of the matched span together with the captured
hour, minute (0 when the pattern has none) and AM/PM flag (false when the
pattern has no marker, as `map_or(false, ..)` yields in the source).  The
scanner tries every start position left to right, i.e. the leftmost match
is returned, as `Regex::captures` does. -/

def digitVal (c : Char) : Nat := c.toNat - 48

def isWordChar (c : Char) : Bool := c.isAlpha || c.isDigit || c == '_'

/-- A word boundary holds just before a digit iff the previous character is
absent or not a word character. -/
def bOk : Option Char → Bool
  | none => true
  | some c => !isWordChar c

/-- A word boundary holds just after a word character iff the next
character is absent or not a word character. -/
def bEnd : Str → Bool
  | [] => true
  | c :: _ => !isWordChar c

/-- Greedy `(\d{1,2})` with backtracking: try the two-digit capture first,
fall back to one digit.  The continuation receives the captured value, the
rest of the text and the number of characters consumed. -/
def hourThen (s : Str) (k : Nat → Str → Nat → Option (Nat × Nat × Nat × Bool)) :
    Option (Nat × Nat × Nat × Bool) :=
  match s with
  | [] => none
  | [c0] => if c0.isDigit then k (digitVal c0) [] 1 else none
  | c0 :: c1 :: rest =>
    if c0.isDigit then
      if c1.isDigit then
        match k (10 * digitVal c0 + digitVal c1) rest 2 with
        | some r => some r
        | none => k (digitVal c0) (c1 :: rest) 1
      else k (digitVal c0) (c1 :: rest) 1
    else none

/-- Exactly two digits `(\d{2})`. -/
def min2 : Str → Option (Nat × Str)
  | c0 :: c1 :: rest =>
    if c0.isDigit && c1.isDigit then some (10 * digitVal c0 + digitVal c1, rest)
    else none
  | _ => none

/-- `\s*`: the length of the leading whitespace run and the rest. -/
def spanWs : Str → Nat × Str
  | [] => (0, [])
  | c :: cs =>
    if c.isWhitespace then
      let r := spanWs cs
      (r.1 + 1, r.2)
    else (0, c :: cs)

/-- `(AM|PM|am|pm)`: the four exact alternatives of the source patterns
(mixed case such as "Pm" is not among them); reports whether the match
contains a `p`, as the source's `is_pm` test does. -/
def ampmAt : Str → Option (Bool × Str)
  | c1 :: c2 :: rest =>
    if (c1 == 'A' && c2 == 'M') || (c1 == 'a' && c2 == 'm') then some (false, rest)
    else if (c1 == 'P' && c2 == 'M') || (c1 == 'p' && c2 == 'm') then some (true, rest)
    else none
  | _ => none

/-- Pattern 1, at one start position: `\b(\d{1,2}):(\d{2})\s*(AM|PM|am|pm)\b`. -/
def p1At (prev : Option Char) (s : Str) : Option (Nat × Nat × Nat × Bool) :=
  if bOk prev then
    hourThen s (fun h rest n1 =>
      match rest with
      | ':' :: r2 =>
        match min2 r2 with
        | some (m, r3) =>
          let ws := spanWs r3
          match ampmAt ws.2 with
          | some (pm, r5) => if bEnd r5 then some (n1 + 3 + ws.1 + 2, h, m, pm) else none
          | none => none
        | none => none
      | _ => none)
  else none

/-- Pattern 2, at one start position: `\b(\d{1,2})\s*(AM|PM|am|pm)\b`. -/
def p2At (prev : Option Char) (s : Str) : Option (Nat × Nat × Nat × Bool) :=
  if bOk prev then
    hourThen s (fun h rest n1 =>
      let ws := spanWs rest
      match ampmAt ws.2 with
      | some (pm, r5) => if bEnd r5 then some (n1 + ws.1 + 2, h, 0, pm) else none
      | none => none)
  else none

/-- Pattern 3, at one start position: `at\s+(\d{1,2}):(\d{2})\s*(AM|PM|am|pm)\b`. -/
def p3At (_prev : Option Char) (s : Str) : Option (Nat × Nat × Nat × Bool) :=
  match s with
  | 'a' :: 't' :: r1 =>
    let w1 := spanWs r1
    if w1.1 == 0 then none
    else
      hourThen w1.2 (fun h rest n1 =>
        match rest with
        | ':' :: r2 =>
          match min2 r2 with
          | some (m, r3) =>
            let w2 := spanWs r3
            match ampmAt w2.2 with
            | some (pm, r5) =>
              if bEnd r5 then some (2 + w1.1 + n1 + 3 + w2.1 + 2, h, m, pm) else none
            | none => none
          | none => none
        | _ => none)
  | _ => none

/-- Pattern 4, at one start position: `at\s+(\d{1,2})\s*(AM|PM|am|pm)\b`. -/
def p4At (_prev : Option Char) (s : Str) : Option (Nat × Nat × Nat × Bool) :=
  match s with
  | 'a' :: 't' :: r1 =>
    let w1 := spanWs r1
    if w1.1 == 0 then none
    else
      hourThen w1.2 (fun h rest n1 =>
        let w2 := spanWs rest
        match ampmAt w2.2 with
        | some (pm, r5) =>
          if bEnd r5 then some (2 + w1.1 + n1 + w2.1 + 2, h, 0, pm) else none
        | none => none)
  | _ => none

/-- Pattern 5, at one start position: `\b(\d{1,2}):(\d{2})\b` (bare 24-hour). -/
def p5At (prev : Option Char) (s : Str) : Option (Nat × Nat × Nat × Bool) :=
  if bOk prev then
    hourThen s (fun h rest n1 =>
      match rest with
      | ':' :: r2 =>
        match min2 r2 with
        | some (m, r3) => if bEnd r3 then some (n1 + 3, h, m, false) else none
        | none => none
      | _ => none)
  else none

/-- Pattern 6, at one start position: `\b(\d{1,2})h\b` (shorthand hour). -/
def p6At (prev : Option Char) (s : Str) : Option (Nat × Nat × Nat × Bool) :=
  if bOk prev then
    hourThen s (fun h rest n1 =>
      match rest with
      | 'h' :: r2 => if bEnd r2 then some (n1 + 1, h, 0, false) else none
      | _ => none)
  else none

/-- Leftmost match of one pattern: try each start position left to right,
returning the matched text (capture 0) and the captures. -/
def scanPat (patAt : Option Char → Str → Option (Nat × Nat × Nat × Bool)) :
    Option Char → Str → Option (Str × Nat × Nat × Bool)
  | prev, [] =>
    match patAt prev [] with
    | some (_, h, m, pm) => some ([], h, m, pm)
    | none => none
  | prev, c :: cs =>
    match patAt prev (c :: cs) with
    | some (n, h, m, pm) => some ((c :: cs).take n, h, m, pm)
    | none => scanPat patAt (some c) cs

/-- One iteration of the source's pattern loop: on a match, convert the
captured hour to 24-hour form and validate it with
`NaiveTime::from_hms_opt`; an invalid time falls through to the next
pattern (`none` here). -/
def tryTime (r : Option (Str × Nat × Nat × Bool)) : Option (Time × Str) :=
  match r with
  | none => none
  | some (mt, h, m, pm) =>
    let h24 := if pm && h != 12 then h + 12 else if !pm && h == 12 then 0 else h
    if h24 < 24 && m < 60 then some (⟨h24, m, 0⟩, mt) else none

/-- `extract_time_from_text` (src/app.rs lines 198-246): the six patterns
are tried in the source's fixed order; the first one that matches and
yields a valid time of day wins. -/
def extract_time_from_text (text : Str) : Option (Time × Str) :=
  match tryTime (scanPat p1At none text) with
  | some r => some r
  | none =>
  match tryTime (scanPat p2At none text) with
  | some r => some r
  | none =>
  match tryTime (scanPat p3At none text) with
  | some r => some r
  | none =>
  match tryTime (scanPat p4At none text) with
  | some r => some r
  | none =>
  match tryTime (scanPat p5At none text) with
  | some r => some r
  | none => tryTime (scanPat p6At none text)

/-! ## The relative-date resolver (`parse_time_with_context`) -/

def todayLit : Str := "today".data
def tomorrowLit : Str := "tomorrow".data

/-- The fixed Monday-first weekday list of the source. -/
def weekdayNames : List Str :=
  ["monday".data, "tuesday".data, "wednesday".data, "thursday".data,
   "friday".data, "saturday".data, "sunday".data]

/-- The source's weekday loop: the first name (in the fixed order) contained
in the lower-cased input wins, together with its index. -/
def findWeekdayAux : Nat → List Str → Str → Option (Nat × Str)
  | _, [], _ => none
  | i, d :: ds, s => if containsStr s d then some (i, d) else findWeekdayAux (i + 1) ds s

def findWeekday (s : Str) : Option (Nat × Str) := findWeekdayAux 0 weekdayNames s

/-- `get_next_weekday` (src/app.rs lines 248-257): with
`current = now.weekday().num_days_from_monday()`, move
`target - current` days ahead when `target > current`, else
`7 - (current - target)` days ahead, and take the date. -/
def get_next_weekday (now : Instant) (target : Nat) : Nat :=
  let current := now.date % 7
  let days_until_target := if target > current then target - current else 7 - (current - target)
  now.date + days_until_target

/-- `parse_time_with_context` (src/app.rs lines 143-196).  The "today" and
"tomorrow" branches extract a time from the lower-cased input; the clock
branch and the weekday branch call the extractor on the original input,
exactly as the source does. -/
def parse_time_with_context (now : Instant) (input : Str) : Option (Instant × Str) :=
  let inputLower := toLowerStr input
  if containsStr inputLower todayLit then
    match extract_time_from_text inputLower with
    | some (t, matched) => some (⟨now.date, t⟩, matched)
    | none => some (⟨now.date, ⟨23, 59, 0⟩⟩, todayLit)
  else if containsStr inputLower tomorrowLit then
    match extract_time_from_text inputLower with
    | some (t, matched) => some (⟨now.date + 1, t⟩, matched)
    | none => some (⟨now.date + 1, ⟨9, 0, 0⟩⟩, tomorrowLit)
  else
    match extract_time_from_text input with
    | some (t, matched) =>
      let targetDate := if t.leb now.time then now.date + 1 else now.date
      some (⟨targetDate, t⟩, matched)
    | none =>
      match findWeekday inputLower with
      | some (i, day) =>
        let t :=
          match extract_time_from_text input with
          | some (t, _) => t
          | none => ⟨9, 0, 0⟩
        some (⟨get_next_weekday now i, t⟩, day)
      | none => none

/-! ## Date formatting and the date/description splitter -/

/-- Proleptic-Gregorian conversion from a count of days since 1970-01-01 to
(year, month, day); models the calendar arithmetic behind chrono's
`%Y-%m-%d` formatting (external crate). -/
def civilFromDays (days : Nat) : Nat × Nat × Nat :=
  let z := days + 719468
  let era := z / 146097
  let doe := z % 146097
  let yoe := (doe - doe / 1460 + doe / 36524 - doe / 146096) / 365
  let y := yoe + era * 400
  let doy := doe - (365 * yoe + yoe / 4 - yoe / 100)
  let mp := (5 * doy + 2) / 153
  let d := doy - (153 * mp + 2) / 5 + 1
  let m := if mp < 10 then mp + 3 else mp - 9
  (if m ≤ 2 then y + 1 else y, m, d)

def pad2 (n : Nat) : Str :=
  let s := Nat.toDigits 10 n
  if s.length < 2 then '0' :: s else s

def pad4 (n : Nat) : Str :=
  let s := Nat.toDigits 10 n
  List.replicate (4 - s.length) '0' ++ s

/-- `%Y-%m-%d` of a day number (day 0 = 2024-01-01, which is 19723 days
after 1970-01-01). -/
def formatDate (d : Nat) : Str :=
  let c := civilFromDays (d + 19723)
  pad4 c.1 ++ '-' :: pad2 c.2.1 ++ '-' :: pad2 c.2.2

/-- `%H:%M` of a time of day. -/
def formatHM (t : Time) : Str := pad2 t.hour ++ ':' :: pad2 t.minute

/-- The due-date string the splitter builds from a resolved date-time:
`%Y-%m-%d %H:%M` when the time of day is not midnight, else `%Y-%m-%d`
(src/app.rs lines 112-116 and 130-134). -/
def formatDue (dt : Instant) : Str :=
  if dt.time.hour != 0 || dt.time.minute != 0 then
    formatDate dt.date ++ ' ' :: formatHM dt.time
  else formatDate dt.date

/-- `extract_date_and_clean_description` (src/app.rs lines 105-141).  The
first-attempt external parse (`chrono_english::parse_date_string`, an
external collaborator) is supplied as the `ext` argument: on its success
the original input is kept as the description; on its failure the
resolver runs and, on a match, the matched literal is removed with
`str::replace`, the result trimmed, and double spaces collapsed once. -/
def extract_date_and_clean_description (ext : Option Instant) (now : Instant)
    (input : Str) : Str × Option Str :=
  match ext with
  | some parsed => (input, some (formatDue parsed))
  | none =>
    match parse_time_with_context now input with
    | some (dt, matched) =>
      let cleaned := replaceStr (trimStr (replaceStr input matched [])) "  ".data " ".data
      (cleaned, some (formatDue dt))
    | none => (input, none)

/-! ## The item store: tasks and the application state (src/app.rs) -/

inductive Priority where
  | Low
  | Medium
  | High
deriving DecidableEq, Repr

/-- The cycle Low → Medium → High → Low of `cycle_priority`. -/
def Priority.next : Priority → Priority
  | .Low => .Medium
  | .Medium => .High
  | .High => .Low

/-- `Task` (task.rs, declaration mirrored from its uses in src/app.rs):
`id`, `description`, `completed`, `priority`, `due_date`,
`sub_tasks: Box<Vec<Task>>`, `tags`. -/
inductive Task : Type where
  | mk (id : Nat) (description : Str) (completed : Bool) (priority : Priority)
      (due_date : Option Str) (sub_tasks : List Task) (tags : List Str)

def Task.id : Task → Nat
  | .mk i _ _ _ _ _ _ => i

def Task.description : Task → Str
  | .mk _ d _ _ _ _ _ => d

def Task.completed : Task → Bool
  | .mk _ _ c _ _ _ _ => c

def Task.priority : Task → Priority
  | .mk _ _ _ p _ _ _ => p

def Task.due_date : Task → Option Str
  | .mk _ _ _ _ dd _ _ => dd

def Task.sub_tasks : Task → List Task
  | .mk _ _ _ _ _ st _ => st

def Task.tags : Task → List Str
  | .mk _ _ _ _ _ _ tg => tg

/-- `self.tasks.iter().map(|t| t.id).max().unwrap_or(0)`. -/
def maxId (ts : List Task) : Nat := ts.foldr (fun t m => max t.id m) 0

/-- Whether some task of the list carries the identifier, i.e. whether
`iter_mut().find(|t| t.id == i)` succeeds. -/
def anyId (i : Nat) (ts : List Task) : Bool := ts.any (fun t => t.id == i)

/-- `iter_mut().find(|t| t.id == i)` followed by a mutation of the found
task: rewrite the first task carrying the identifier, keep the rest. -/
def modifyFirstById (f : Task → Task) (i : Nat) : List Task → List Task
  | [] => []
  | t :: ts => if t.id == i then f t :: ts else t :: modifyFirstById f i ts

/-- `position(|t| t.id == i)` followed by `remove`: drop the first task
carrying the identifier, keep the rest. -/
def removeFirstById (i : Nat) : List Task → List Task
  | [] => []
  | t :: ts => if t.id == i then ts else t :: removeFirstById i ts

inductive AppMode where
  | Normal
  | Insert
  | DateInput
  | Search
deriving DecidableEq, Repr

/-- `App` (src/app.rs lines 14-23); `state` is the selected display index
of the `ListState`. -/
structure App where
  tasks : List Task
  state : Option Nat
  mode : AppMode
  input : Str
  date_input : Str
  search_input : Str
  margin : Nat
  adding_subtask : Bool

/-- The priority arm of the `filter_tasks` predicate. -/
def prioMatch (sl : Str) (p : Priority) : Bool :=
  if sl == "high".data || sl == "h".data then p == Priority.High
  else if sl == "medium".data || sl == "med".data || sl == "m".data then p == Priority.Medium
  else if sl == "low".data || sl == "l".data then p == Priority.Low
  else false

/-- The completion-status arm of the `filter_tasks` predicate. -/
def complMatch (sl : Str) (c : Bool) : Bool :=
  if sl == "completed".data || sl == "done".data || sl == "finished".data then c
  else if sl == "incomplete".data || sl == "pending".data || sl == "todo".data then !c
  else false

/-- `filter_tasks` (src/app.rs lines 365-401). -/
def filter_tasks (app : App) : List Task :=
  if app.search_input.isEmpty then app.tasks
  else
    let sl := toLowerStr app.search_input
    app.tasks.filter (fun task =>
      containsStr (toLowerStr task.description) sl
      || task.tags.any (fun tag => containsStr (toLowerStr tag) sl)
      || prioMatch sl task.priority
      || complMatch sl task.completed
      || (match task.due_date with
          | some date => containsStr date sl
          | none => false)
      || task.sub_tasks.any (fun subtask =>
           containsStr (toLowerStr subtask.description) sl
           || subtask.tags.any (fun tag => containsStr (toLowerStr tag) sl)))

/-- `get_displayed_tasks` (src/app.rs lines 403-408). -/
def get_displayed_tasks (app : App) : List Task :=
  match app.mode with
  | .Search => if !app.search_input.isEmpty then filter_tasks app else app.tasks
  | _ => app.tasks

/-- `toggle_completed` (src/app.rs lines 73-83). -/
def toggle_completed (app : App) : App :=
  match app.state with
  | none => app
  | some selected_index =>
    match (get_displayed_tasks app)[selected_index]? with
    | none => app
    | some selected_task =>
      { app with
        tasks := modifyFirstById
          (fun t => .mk t.id t.description (!t.completed) t.priority t.due_date
            t.sub_tasks t.tags) selected_task.id app.tasks }

/-- `cycle_priority` (src/app.rs lines 85-99). -/
def cycle_priority (app : App) : App :=
  match app.state with
  | none => app
  | some selected_index =>
    match (get_displayed_tasks app)[selected_index]? with
    | none => app
    | some selected_task =>
      { app with
        tasks := modifyFirstById
          (fun t => .mk t.id t.description t.completed t.priority.next t.due_date
            t.sub_tasks t.tags) selected_task.id app.tasks }

/-- `set_due_date` (src/app.rs lines 332-343): when the selection resolves
and the identifier is found, the raw `date_input` buffer is drained into
the task's due date; the mode returns to Normal in every case. -/
def set_due_date (app : App) : App :=
  let app' :=
    match app.state with
    | none => app
    | some selected_index =>
      match (get_displayed_tasks app)[selected_index]? with
      | none => app
      | some selected_task =>
        if anyId selected_task.id app.tasks then
          { app with
            tasks := modifyFirstById
              (fun t => .mk t.id t.description t.completed t.priority
                (some app.date_input) t.sub_tasks t.tags) selected_task.id app.tasks,
            date_input := [] }
        else app
  { app' with mode := .Normal }

/-- `delete_task` (src/app.rs lines 345-363). -/
def delete_task (app : App) : App :=
  match app.state with
  | none => app
  | some selected_index =>
    match (get_displayed_tasks app)[selected_index]? with
    | none => app
    | some selected_task =>
      let app' := { app with tasks := removeFirstById selected_task.id app.tasks }
      let newDisplayed := get_displayed_tasks app'
      if newDisplayed.isEmpty then { app' with state := none }
      else { app' with state := some (min selected_index (newDisplayed.length - 1)) }

/-- The tag extraction of `add_task`/`add_sub_task`: whitespace-delimited
words of the raw input that start with `#`. -/
def extractTags (input : Str) : List Str :=
  (splitWs input).filter (fun word =>
    match word with
    | '#' :: _ => true
    | _ => false)

/-- `add_sub_task` (src/app.rs lines 292-330): the new sub-task's
identifier is the parent's sub-task maximum plus one; the input buffer is
cleared and the mode returns to Normal in every case. -/
def add_sub_task (ext : Option Instant) (now : Instant) (app : App) : App :=
  let app' :=
    match app.state with
    | none => app
    | some selected_index =>
      match (get_displayed_tasks app)[selected_index]? with
      | none => app
      | some selected_task =>
        let r := extract_date_and_clean_description ext now app.input
        let tags := extractTags app.input
        { app with
          tasks := modifyFirstById
            (fun main_task =>
              .mk main_task.id main_task.description main_task.completed
                main_task.priority main_task.due_date
                (main_task.sub_tasks ++
                  [Task.mk (maxId main_task.sub_tasks + 1)
                    (if (trimStr r.1).isEmpty then app.input else r.1)
                    false .Medium r.2 [] tags])
                main_task.tags)
            selected_task.id app.tasks }
  { app' with input := [], mode := .Normal }

/-- `add_task` (src/app.rs lines 259-290): with the sub-task flag set it
delegates to `add_sub_task` and resets the flag; otherwise it appends a
top-level task with identifier `max existing + 1` (1 on an empty list). -/
def add_task (ext : Option Instant) (now : Instant) (app : App) : App :=
  let app' :=
    if app.adding_subtask then { add_sub_task ext now app with adding_subtask := false }
    else
      let new_id := maxId app.tasks + 1
      let r := extract_date_and_clean_description ext now app.input
      let tags := extractTags app.input
      { app with
        tasks := app.tasks ++
          [Task.mk new_id (if (trimStr r.1).isEmpty then app.input else r.1)
            false .Medium r.2 [] tags] }
  { app' with input := [], mode := .Normal }

/-! ## Spec-side definitions -/

/-- Modelled from the spec: a due-date string is canonical when it is
syntactically `YYYY-MM-DD` or `YYYY-MM-DD HH:MM` (ten, respectively
sixteen, characters with digits in the digit positions and the literal
separators). -/
def specCanonicalDueDate (s : Str) : Bool :=
  match s with
  | [y1, y2, y3, y4, '-', m1, m2, '-', d1, d2] =>
    y1.isDigit && y2.isDigit && y3.isDigit && y4.isDigit &&
      m1.isDigit && m2.isDigit && d1.isDigit && d2.isDigit
  | [y1, y2, y3, y4, '-', m1, m2, '-', d1, d2, ' ', h1, h2, ':', n1, n2] =>
    y1.isDigit && y2.isDigit && y3.isDigit && y4.isDigit &&
      m1.isDigit && m2.isDigit && d1.isDigit && d2.isDigit &&
      h1.isDigit && h2.isDigit && n1.isDigit && n2.isDigit
  | _ => false

/-- A selection that does not resolve to a store task: no selected index,
an index outside the displayed projection, or a displayed task whose
identifier is absent from the canonical store. -/
def SelectionInvalid (app : App) : Prop :=
  app.state = none ∨
  (∃ idx, app.state = some idx ∧ (get_displayed_tasks app)[idx]? = none) ∨
  (∃ idx sel, app.state = some idx ∧ (get_displayed_tasks app)[idx]? = some sel ∧
    anyId sel.id app.tasks = false)

/-! ## Helper lemmas -/

theorem anyId_of_get (i j : Nat) (ts : List Task) (t : Task)
    (h3 : ts[j]? = some t) (h4 : t.id = i) : anyId i ts = true := by
  have hmem : t ∈ ts := List.getElem?_mem h3
  simp only [anyId, List.any_eq_true]
  exact ⟨t, hmem, by simp [h4]⟩

theorem modifyFirstById_of_not_any (f : Task → Task) (i : Nat) (ts : List Task)
    (h : anyId i ts = false) : modifyFirstById f i ts = ts := by
  induction ts with
  | nil => rfl
  | cons t ts ih =>
    simp only [anyId, List.any_cons, Bool.or_eq_false_iff] at h
    rw [modifyFirstById, if_neg (by simp [h.1]), ih h.2]

theorem removeFirstById_of_not_any (i : Nat) (ts : List Task)
    (h : anyId i ts = false) : removeFirstById i ts = ts := by
  induction ts with
  | nil => rfl
  | cons t ts ih =>
    simp only [anyId, List.any_cons, Bool.or_eq_false_iff] at h
    rw [removeFirstById, if_neg (by simp [h.1]), ih h.2]

theorem modifyFirstById_eq_set (f : Task → Task) (i : Nat) :
    ∀ (ts : List Task) (j : Nat) (t : Task),
    ts[j]? = some t → t.id = i →
    ((ts.take j).all (fun u => !(u.id == i))) = true →
    modifyFirstById f i ts = ts.set j (f t) := by
  intro ts
  induction ts with
  | nil => intro j t h _ _; simp at h
  | cons a as ih =>
    intro j t h3 h4 h5
    cases j with
    | zero =>
      have ha : a = t := by simpa using h3
      subst ha
      rw [modifyFirstById, if_pos (by simp [h4])]
      rfl
    | succ j =>
      have h3' : as[j]? = some t := by simpa using h3
      have h5' : ((as.take j).all (fun u => !(u.id == i))) = true ∧ (a.id == i) = false := by
        simp only [List.take_succ_cons, List.all_cons, Bool.and_eq_true] at h5
        exact ⟨h5.2, by simpa using h5.1⟩
      rw [modifyFirstById, if_neg (by simp [h5'.2]), ih j t h3' h4 h5'.1]
      rfl

theorem map_subTasks_modifyFirstById (f : Task → Task) (i : Nat)
    (hf : ∀ t, (f t).sub_tasks = t.sub_tasks) (ts : List Task) :
    (modifyFirstById f i ts).map Task.sub_tasks = ts.map Task.sub_tasks := by
  induction ts with
  | nil => rfl
  | cons a as ih =>
    rw [modifyFirstById]
    by_cases h : (a.id == i) = true
    · rw [if_pos h]; simp [hf]
    · rw [if_neg h]; simp [ih]

theorem removeFirstById_sublist (i : Nat) (ts : List Task) :
    (removeFirstById i ts).Sublist ts := by
  induction ts with
  | nil => simp [removeFirstById]
  | cons a as ih =>
    rw [removeFirstById]
    by_cases h : (a.id == i) = true
    · rw [if_pos h]; exact List.sublist_cons_self a as
    · rw [if_neg h]; exact ih.cons₂ a

theorem findWeekdayAux_lt (l : List Str) :
    ∀ (k : Nat) (s : Str) (i : Nat) (nm : Str),
    findWeekdayAux k l s = some (i, nm) → i < k + l.length := by
  induction l with
  | nil => intro k s i nm h; simp [findWeekdayAux] at h
  | cons d ds ih =>
    intro k s i nm h
    rw [findWeekdayAux] at h
    by_cases hc : containsStr s d = true
    · rw [if_pos hc] at h
      simp only [Option.some.injEq, Prod.mk.injEq] at h
      obtain ⟨hk, -⟩ := h
      simp only [List.length_cons]
      omega
    · rw [if_neg hc] at h
      have := ih (k + 1) s i nm h
      simp only [List.length_cons]
      omega

theorem get_next_weekday_formula (now : Instant) (i : Nat) (hi : i < 7) :
    get_next_weekday now i = now.date + ((i + 7 - now.date % 7 - 1) % 7 + 1) := by
  simp only [get_next_weekday]
  split <;> omega

theorem isPrefixOf_append_self (l e : Str) : l.isPrefixOf (l ++ e) = true := by
  induction l with
  | nil => simp [List.isPrefixOf]
  | cons c cs ih => simp [List.isPrefixOf, ih]

theorem length_le_of_isPrefixOf (l₁ l₂ : Str) (h : l₁.isPrefixOf l₂ = true) :
    l₁.length ≤ l₂.length := by
  induction l₁ generalizing l₂ with
  | nil => simp
  | cons c cs ih =>
    cases l₂ with
    | nil => simp [List.isPrefixOf] at h
    | cons d ds =>
      simp only [List.isPrefixOf, Bool.and_eq_true] at h
      have := ih ds h.2
      simp only [List.length_cons]
      omega

theorem replaceFuel_length_le (p : Char) (ps rep : Str)
    (hrep : rep.length ≤ ps.length + 1) :
    ∀ (fuel : Nat) (s : Str), s.length ≤ fuel →
    (replaceFuel p ps rep fuel s).length ≤ s.length := by
  intro fuel
  induction fuel with
  | zero =>
    intro s hs
    cases s with
    | nil => simp [replaceFuel]
    | cons c cs => simp at hs
  | succ n ih =>
    intro s hs
    cases s with
    | nil => simp [replaceFuel]
    | cons c cs =>
      rw [replaceFuel]
      by_cases hp : (p :: ps).isPrefixOf (c :: cs) = true
      · rw [if_pos hp]
        have hlen : ps.length + 1 ≤ cs.length + 1 := by
          have := length_le_of_isPrefixOf _ _ hp
          simpa using this
        have hd : (cs.drop ps.length).length = cs.length - ps.length :=
          List.length_drop _ _
        have hrec := ih (cs.drop ps.length) (by simp only [List.length_cons] at hs; omega)
        simp only [List.length_append, List.length_cons, hd] at *
        omega
      · rw [if_neg hp]
        have hrec := ih cs (by simp only [List.length_cons] at hs; omega)
        simp only [List.length_cons]
        omega

theorem replaceFuel_one_occ (p : Char) (ps : Str) :
    ∀ (fuel : Nat) (d e s : Str), s = d ++ (p :: ps) ++ e → s.length ≤ fuel →
    (replaceFuel p ps [] fuel s).length + (ps.length + 1) ≤ s.length := by
  intro fuel
  induction fuel with
  | zero =>
    intro d e s hse hs
    subst hse
    simp at hs
  | succ n ih =>
    intro d e s hse hs
    subst hse
    cases d with
    | nil =>
      simp only [List.nil_append, List.cons_append] at *
      rw [replaceFuel, if_pos (by simp)]
      have hdrop : (ps ++ e).drop ps.length = e := List.drop_left ps e
      rw [hdrop]
      have := replaceFuel_length_le p ps [] (by simp) n e
        (by simp only [List.length_cons, List.length_append] at hs; omega)
      simp only [List.nil_append, List.length_cons, List.length_append]
      omega
    | cons x d' =>
      simp only [List.cons_append] at *
      rw [replaceFuel]
      by_cases hp : (p :: ps).isPrefixOf (x :: (d' ++ (p :: ps) ++ e)) = true
      · rw [if_pos hp]
        have hlen : ps.length ≤ (d' ++ (p :: ps) ++ e).length := by
          simp only [List.length_append, List.length_cons]; omega
        have hd : ((d' ++ (p :: ps) ++ e).drop ps.length).length =
            (d' ++ (p :: ps) ++ e).length - ps.length := List.length_drop _ _
        have := replaceFuel_length_le p ps [] (by simp) n
          ((d' ++ (p :: ps) ++ e).drop ps.length)
          (by simp only [List.length_cons] at hs; omega)
        simp only [List.nil_append, List.length_cons, List.length_append] at *
        omega
      · rw [if_neg hp]
        have := ih d' e (d' ++ (p :: ps) ++ e) rfl
          (by simp only [List.length_cons] at hs; omega)
        simp only [List.length_cons, List.length_append] at *
        omega

theorem replaceFuel_two_occ (p : Char) (ps : Str) :
    ∀ (fuel : Nat) (a b c s : Str),
    s = a ++ (p :: ps) ++ b ++ (p :: ps) ++ c → s.length ≤ fuel →
    (replaceFuel p ps [] fuel s).length + 2 * (ps.length + 1) ≤ s.length := by
  intro fuel
  induction fuel with
  | zero =>
    intro a b c s hse hs
    subst hse
    simp at hs
  | succ n ih =>
    intro a b c s hse hs
    subst hse
    cases a with
    | nil =>
      simp only [List.nil_append, List.cons_append] at *
      rw [replaceFuel, if_pos (by simp [List.append_assoc])]
      have hdrop : ((ps ++ (b ++ (p :: ps) ++ c)).drop ps.length) = b ++ (p :: ps) ++ c := by
        simp [List.append_assoc]
      rw [show ps ++ b ++ (p :: ps) ++ c = ps ++ (b ++ (p :: ps) ++ c) by
        simp [List.append_assoc]] at *
      rw [hdrop]
      have := replaceFuel_one_occ p ps n b c (b ++ (p :: ps) ++ c) rfl
        (by simp only [List.length_cons, List.length_append] at hs ⊢; omega)
      simp only [List.nil_append, List.length_cons, List.length_append] at *
      omega
    | cons x a' =>
      simp only [List.cons_append] at *
      rw [replaceFuel]
      set u := a' ++ (p :: ps) ++ b ++ (p :: ps) ++ c with hu
      by_cases hp : (p :: ps).isPrefixOf (x :: u) = true
      · rw [if_pos hp]
        have hassoc : u = (a' ++ (p :: ps) ++ b) ++ ((p :: ps) ++ c) := by
          simp [hu, List.append_assoc]
        have hle : ps.length ≤ (a' ++ (p :: ps) ++ b).length := by
          simp only [List.length_append, List.length_cons]; omega
        have hdrop : u.drop ps.length =
            ((a' ++ (p :: ps) ++ b).drop ps.length) ++ ((p :: ps) ++ c) := by
          rw [hassoc]
          exact List.drop_append_of_le_length hle
        have := replaceFuel_one_occ p ps n
          ((a' ++ (p :: ps) ++ b).drop ps.length) c (u.drop ps.length)
          (by rw [hdrop]; simp [List.append_assoc])
          (by
            have : (u.drop ps.length).length = u.length - ps.length := List.length_drop _ _
            simp only [List.length_cons] at hs
            omega)
        have hul : (u.drop ps.length).length = u.length - ps.length := List.length_drop _ _
        have hulen : ps.length + 1 ≤ u.length := by
          simp only [hu, List.length_append, List.length_cons]; omega
        simp only [List.nil_append, List.length_cons] at *
        omega
      · rw [if_neg hp]
        have := ih a' b c u hu (by simp only [List.length_cons] at hs; omega)
        simp only [List.length_cons]
        omega

theorem dropWhile_length_le (q : Char → Bool) (l : Str) :
    (l.dropWhile q).length ≤ l.length := by
  induction l with
  | nil => simp
  | cons c cs ih =>
    rw [List.dropWhile]
    by_cases h : q c = true
    · rw [h]; simp only [List.length_cons]; omega
    · rw [Bool.not_eq_true] at h; rw [h]

theorem trimStr_length_le (s : Str) : (trimStr s).length ≤ s.length := by
  simp only [trimStr, List.length_reverse]
  calc ((s.dropWhile Char.isWhitespace).reverse.dropWhile Char.isWhitespace).length
      ≤ (s.dropWhile Char.isWhitespace).reverse.length := dropWhile_length_le _ _
    _ = (s.dropWhile Char.isWhitespace).length := List.length_reverse _
    _ ≤ s.length := dropWhile_length_le _ _

/-- Additional helper: `delete_task` never changes the sub-task flag. -/
theorem delete_task_adding_subtask (app : App) :
    (delete_task app).adding_subtask = app.adding_subtask := by
  unfold delete_task
  split
  · rfl
  · split
    · rfl
    · dsimp only
      split <;> rfl

/-- Additional helper: the store after `delete_task` is a sublist of the
store before it (at most one task, located by identifier, is removed). -/
theorem delete_task_tasks_sublist (app : App) :
    ((delete_task app).tasks).Sublist app.tasks := by
  unfold delete_task
  split
  · exact List.Sublist.refl _
  · split
    · exact List.Sublist.refl _
    · dsimp only
      split
      · exact removeFirstById_sublist _ _
      · exact removeFirstById_sublist _ _

/-! ## Concrete data for counterexamples and witnesses -/

/-- A reference instant: day 0 (2024-01-01, a Monday) at noon. -/
def refNow : Instant := ⟨0, ⟨12, 0, 0⟩⟩

def sampleTaskA : Task := Task.mk 1 ['a'] false .Medium none [] []

def sampleTaskB : Task := Task.mk 2 ['b'] false .Medium none [] []

def mondayInput : Str := "monday".data

def fridayInput : Str := "friday".data

def dateApp : App := ⟨[sampleTaskA], some 0, .DateInput, [], "soon".data, [], 1, false⟩

def bare1230 : Str := "12:30".data

def bare12h : Str := "12h".data

def delApp : App := ⟨[sampleTaskA, sampleTaskB], some 1, .Normal, ['x'], [], [], 1, false⟩

def fiveHTwice : Str := "5h 5h".data

def fiveH : Str := "5h".data

def noSelApp : App := ⟨[sampleTaskA], none, .Normal, [], [], [], 1, false⟩

def toggleApp : App := ⟨[sampleTaskA, sampleTaskB], some 1, .Normal, [], [], [], 1, false⟩

def staleSubApp : App := ⟨[sampleTaskA], none, .Insert, "x #y".data, [], [], 1, true⟩

/-! ## C1: the weekday rule of the relative-date resolver -/

/-- C1 counterexample: with "now" a Monday and input "monday" (no clock
time), the claim's formula `(target - current + 7) mod 7` gives 0 days
ahead (today), but the resolver yields a date 7 days ahead (next week). -/
theorem c1_counterexample :
    (parse_time_with_context refNow mondayInput).map (fun r => r.1.date) = some 7 ∧
    refNow.date + ((0 - 0 + 7) % 7) = 0 ∧ (7 : Nat) ≠ 0 := by decide

/-- C1 (amended): for input that reaches the weekday rule (no "today" or
"tomorrow" keyword and no clock-time match) and contains a weekday name,
the resolved date is `((target - current + 7 - 1) mod 7) + 1` days after
now's date — between 1 and 7 days ahead, and exactly 7 (next week, not
today) when the named weekday equals now's weekday — at 09:00. -/
theorem c1_weekday_days_ahead (now : Instant) (input : Str) (i : Nat) (day : Str)
    (h1 : containsStr (toLowerStr input) todayLit = false)
    (h2 : containsStr (toLowerStr input) tomorrowLit = false)
    (h3 : extract_time_from_text input = none)
    (h4 : findWeekday (toLowerStr input) = some (i, day)) :
    parse_time_with_context now input =
      some (⟨now.date + ((i + 7 - now.date % 7 - 1) % 7 + 1), ⟨9, 0, 0⟩⟩, day) := by
  have hi : i < 7 := by
    have := findWeekdayAux_lt weekdayNames 0 (toLowerStr input) i day h4
    simpa [weekdayNames] using this
  rw [← get_next_weekday_formula now i hi]
  simp only [parse_time_with_context, h1, h2, h3, h4, Bool.false_eq_true, if_false]

/-- C1 witness: "friday" with "now" a Monday resolves to 4 days ahead. -/
theorem c1_weekday_days_ahead_witness :
    parse_time_with_context refNow fridayInput =
      some (⟨4, ⟨9, 0, 0⟩⟩, fridayInput) :=
  c1_weekday_days_ahead refNow fridayInput 4 fridayInput
    (by decide) (by decide) (by decide) (by decide)

/-! ## C2: canonical due-date strings -/

/-- C2 counterexample: `set_due_date` commits the raw buffer "soon" into
the selected task, and "soon" is in neither canonical format. -/
theorem c2_counterexample :
    (set_due_date dateApp).tasks.map Task.due_date = [some "soon".data] ∧
    specCanonicalDueDate "soon".data = false := by decide

/-- C2 (amended): when the selection resolves to a store task,
`set_due_date` stores the raw date-input buffer verbatim (and unvalidated)
as that task's due date and clears the buffer; hence a due-date string can
be any text the user typed, and the canonical-format invariant does not
survive `set_due_date`. -/
theorem c2_set_due_date_verbatim (app : App) (idx j : Nat) (sel t : Task)
    (h1 : app.state = some idx)
    (h2 : (get_displayed_tasks app)[idx]? = some sel)
    (h3 : app.tasks[j]? = some t)
    (h4 : t.id = sel.id)
    (h5 : ((app.tasks.take j).all (fun u => !(u.id == sel.id))) = true) :
    (set_due_date app).tasks =
      app.tasks.set j (Task.mk t.id t.description t.completed t.priority
        (some app.date_input) t.sub_tasks t.tags) ∧
    (set_due_date app).date_input = [] := by
  have hany := anyId_of_get sel.id j app.tasks t h3 h4
  have hset := modifyFirstById_eq_set
    (fun u => Task.mk u.id u.description u.completed u.priority
      (some app.date_input) u.sub_tasks u.tags)
    sel.id app.tasks j t h3 h4 h5
  simp only [set_due_date, h1, h2, hany, if_true]
  exact ⟨hset, trivial⟩

/-- C2 witness: the amended statement at a concrete store. -/
theorem c2_set_due_date_verbatim_witness :
    (set_due_date dateApp).tasks =
      [Task.mk 1 ['a'] false .Medium (some "soon".data) [] []] ∧
    (set_due_date dateApp).date_input = [] :=
  c2_set_due_date_verbatim dateApp 0 0 sampleTaskA sampleTaskA rfl rfl rfl rfl rfl

/-! ## C3: bare 24-hour forms and hour 12 -/

/-- C3: evaluation of the extractor at the failing inputs.  "12:30" (bare
24-hour) and "12h" (shorthand) both return hour 0, not the hour 12 that
was written: with no AM/PM marker the conversion still applies the
"AM and hour = 12 maps to 0" arm, contradicting the pattern's own
24-hour reading. -/
theorem c3_hour12_midnight_eval :
    extract_time_from_text bare1230 = some (⟨0, 30, 0⟩, bare1230) ∧
    extract_time_from_text bare12h = some (⟨0, 0, 0⟩, bare12h) := by decide

/-! ## C4: identifier stability and reuse -/

/-- C4 counterexample: delete the task with identifier 2 (the maximum);
the next add assigns `max
 remaining + 1 = 2`, so the deleted identifier is
reused immediately, refuting "an identifier is never reused after
deletion". -/
theorem c4_counterexample :
    (delete_task delApp).tasks.map Task.id = [1] ∧
    (add_task none refNow (delete_task delApp)).tasks.map Task.id = [1, 2] := by decide

/-- C4 (amended): after a delete every remaining task (hence its
identifier) is unchanged, and a subsequent top-level add assigns
`max(remaining ids) + 1`, which is 1 when the list became empty; an
identifier may however be reused when the deleted identifier exceeded the
remaining maximum. -/
theorem c4_id_stability (app : App) (hsub : app.adding_subtask = false) :
    ((delete_task app).tasks).Sublist app.tasks ∧
    (∀ ext now, (add_task ext now (delete_task app)).tasks.map Task.id =
      ((delete_task app).tasks.map Task.id) ++ [maxId (delete_task app).tasks + 1]) ∧
    ((delete_task app).tasks = [] → maxId (delete_task app).tasks + 1 = 1) := by
  refine ⟨delete_task_tasks_sublist app, ?_, ?_⟩
  · intro ext now
    have hsub' : (delete_task app).adding_subtask = false := by
      rw [delete_task_adding_subtask]; exact hsub
    unfold add_task
    rw [hsub']
    simp only [Bool.false_eq_true, if_false, List.map_append]
    rfl
  · intro h
    rw [h]
    rfl

/-- C4 witness: the amended statement at the two-task store. -/
theorem c4_id_stability_witness :
    ((delete_task delApp).tasks).Sublist delApp.tasks ∧
    (add_task none refNow (delete_task delApp)).tasks.map Task.id =
      ((delete_task delApp).tasks.map Task.id) ++ [maxId (delete_task delApp).tasks + 1] :=
  ⟨(c4_id_stability delApp rfl).1, (c4_id_stability delApp rfl).2.1 none refNow⟩

/-! ## C5: removal of the matched literal by the splitter -/

/-- C5 counterexample: on "5h 5h" the resolver matches the literal "5h",
which occurs twice; the cleaned description is empty, so the second
occurrence does not remain, refuting "first occurrence only". -/
theorem c5_counterexample :
    (extract_date_and_clean_description none refNow fiveHTwice).1 = [] ∧
    containsStr (extract_date_and_clean_description none refNow fiveHTwice).1
      "5h".data = false := by decide

/-- C5 (amended): when the external parse fails and the resolver matches
the literal `p :: ps`, the splitter removes every left-to-right
non-overlapping occurrence of the literal (case-sensitively) before
trimming and collapsing: if the literal occurs twice disjointly, the
cleaned description is shorter than the input by at least twice the
literal's length. -/
theorem c5_removes_all_occurrences (now : Instant) (input a b c : Str)
    (p : Char) (ps : Str) (dt : Instant)
    (h1 : parse_time_with_context now input = some (dt, p :: ps))
    (h2 : input = a ++ (p :: ps) ++ b ++ (p :: ps) ++ c) :
    (extract_date_and_clean_description none now input).2.isSome = true ∧
    (extract_date_and_clean_description none now input).1.length +
      2 * (ps.length + 1) ≤ input.length := by
  simp only [extract_date_and_clean_description, h1]
  refine ⟨rfl, ?_⟩
  have hX : (replaceStr input (p :: ps) []).length + 2 * (ps.length + 1) ≤ input.length :=
    replaceFuel_two_occ p ps input.length a b c input h2 (le_refl _)
  have hT : (trimStr (replaceStr input (p :: ps) [])).length ≤
      (replaceStr input (p :: ps) []).length := trimStr_length_le _
  have hC : (replaceStr (trimStr (replaceStr input (p :: ps) [])) [' ', ' '] [' ']).length ≤
      (trimStr (replaceStr input (p :: ps) [])).length :=
    replaceFuel_length_le ' ' [' '] [' '] (by decide) _ _ (le_refl _)
  omega

/-- C5 witness: the amended statement on "5h 5h". -/
theorem c5_removes_all_occurrences_witness :
    (extract_date_and_clean_description none refNow fiveHTwice).2.isSome = true ∧
    (extract_date_and_clean_description none refNow fiveHTwice).1.length +
      2 * (("h".data).length + 1) ≤ fiveHTwice.length :=
  c5_removes_all_occurrences refNow fiveHTwice [] [' '] [] '5' ['h'] ⟨1, ⟨5, 0, 0⟩⟩
    (by decide) (by decide)

/-! ## C6: forward-rolling of a bare clock time -/

/-- C6: for input with no day-anchor keyword but with a clock-time match,
the resolver yields tomorrow's date at that time when the extracted time
of day is less than or equal to now's, and today's date at that time when
it is strictly greater. -/
theorem c6_time_rolls_forward (now : Instant) (input : Str) (t : Time) (mt : Str)
    (h1 : containsStr (toLowerStr input) todayLit = false)
    (h2 : containsStr (toLowerStr input) tomorrowLit = false)
    (_h3 : findWeekday (toLowerStr input) = none)
    (h4 : extract_time_from_text input = some (t, mt)) :
    parse_time_with_context now input =
      some (⟨if t.leb now.time then now.date + 1 else now.date, t⟩, mt) := by
  simp only [parse_time_with_context, h1, h2, h4, Bool.false_eq_true, if_false]

/-- C6 witness: "5h" (05:00) at noon rolls forward to tomorrow. -/
theorem c6_time_rolls_forward_witness :
    parse_time_with_context refNow fiveH = some (⟨1, ⟨5, 0, 0⟩⟩, fiveH) :=
  c6_time_rolls_forward refNow fiveH ⟨5, 0, 0⟩ fiveH
    (by decide) (by decide) (by decide) (by decide)

/-! ## C7: invalid selections are no-ops on the store -/

/-- C7: for each of toggle completion, cycle priority, set due date and
delete, an unresolvable selection (none, out of range, or an identifier
absent from the store) leaves the task store completely unchanged. -/
theorem c7_invalid_selection_noop (app : App) (h : SelectionInvalid app) :
    (toggle_completed app).tasks = app.tasks ∧
    (cycle_priority app).tasks = app.tasks ∧
    (set_due_date app).tasks = app.tasks ∧
    (delete_task app).tasks = app.tasks := by
  obtain hnone | ⟨idx, h1, h2⟩ | ⟨idx, sel, h1, h2, h3⟩ := h
  · simp only [toggle_completed, cycle_priority, set_due_date, delete_task, hnone]
    and_intros <;> first | rfl | trivial
  · simp only [toggle_completed, cycle_priority, set_due_date, delete_task, h1, h2]
    and_intros <;> first | rfl | trivial
  · simp only [toggle_completed, cycle_priority, set_due_date, delete_task, h1, h2, h3,
      Bool.false_eq_true, if_false, removeFirstById_of_not_any sel.id app.tasks h3]
    and_intros <;>
      first
        | exact modifyFirstById_of_not_any _ sel.id app.tasks h3
        | rfl
        | trivial
        | (split <;> rfl)

/-- C7 witness: a store with no selection. -/
theorem c7_invalid_selection_noop_witness :
    (toggle_completed noSelApp).tasks = noSelApp.tasks ∧
    (cycle_priority noSelApp).tasks = noSelApp.tasks ∧
    (set_due_date noSelApp).tasks = noSelApp.tasks ∧
    (delete_task noSelApp).tasks = noSelApp.tasks :=
  c7_invalid_selection_noop noSelApp (Or.inl rfl)

/-! ## C8: sub-items are never the target of identifier-resolved mutation -/

/-- C8: the identifier-resolved mutations act only on top-level tasks:
toggle, cycle-priority and set-due-date leave every task's sub-item list
(hence every field of every sub-item) unchanged, and every task surviving
a delete is an unchanged task of the original store, so a sub-item can
only disappear together with its parent. -/
theorem c8_subitems_never_mutated (app : App) :
    (toggle_completed app).tasks.map Task.sub_tasks = app.tasks.map Task.sub_tasks ∧
    (cycle_priority app).tasks.map Task.sub_tasks = app.tasks.map Task.sub_tasks ∧
    (set_due_date app).tasks.map Task.sub_tasks = app.tasks.map Task.sub_tasks ∧
    ∀ t ∈ (delete_task app).tasks, t ∈ app.tasks := by
  refine ⟨?_, ?_, ?_, ?_⟩
  · unfold toggle_completed
    split
    · rfl
    · split
      · rfl
      · exact map_subTasks_modifyFirstById
          (fun t => Task.mk t.id t.description (!t.completed) t.priority t.due_date
            t.sub_tasks t.tags) _ (fun t => rfl) app.tasks
  · unfold cycle_priority
    split
    · rfl
    · split
      · rfl
      · exact map_subTasks_modifyFirstById
          (fun t => Task.mk t.id t.description t.completed t.priority.next t.due_date
            t.sub_tasks t.tags) _ (fun t => rfl) app.tasks
  · unfold set_due_date
    split
    · rfl
    · split
      · rfl
      · split
        · exact map_subTasks_modifyFirstById
            (fun t => Task.mk t.id t.description t.completed t.priority
              (some app.date_input) t.sub_tasks t.tags) _ (fun t => rfl) app.tasks
        · rfl
  · intro t ht
    exact (delete_task_tasks_sublist app).subset ht

/-! ## C9: the frame of toggle_completed -/

/-- C9: when the selected display index resolves to the task with the
selected identifier, `toggle_completed` replaces the first store task with
that identifier by a copy whose completion flag is negated, every other
field and every other task being unchanged. -/
theorem c9_toggle_frame (app : App) (idx j : Nat) (sel t : Task)
    (h1 : app.state = some idx)
    (h2 : (get_displayed_tasks app)[idx]? = some sel)
    (h3 : app.tasks[j]? = some t)
    (h4 : t.id = sel.id)
    (h5 : ((app.tasks.take j).all (fun u => !(u.id == sel.id))) = true) :
    (toggle_completed app).tasks =
      app.tasks.set j (Task.mk t.id t.description (!t.completed) t.priority
        t.due_date t.sub_tasks t.tags) := by
  simp only [toggle_completed, h1, h2]
  exact modifyFirstById_eq_set _ sel.id app.tasks j t h3 h4 h5

/-- C9 witness: toggling the second of two tasks negates exactly its
completion flag. -/
theorem c9_toggle_frame_witness :
    (toggle_completed toggleApp).tasks =
      [sampleTaskA, Task.mk 2 ['b'] true .Medium none [] []] :=
  c9_toggle_frame toggleApp 1 1 sampleTaskB sampleTaskB rfl rfl rfl rfl rfl

/-! ## C10: sub-item add with no usable selection -/

/-- C10: when `add_task` runs with the adding-sub-item flag set but the
selection does not resolve to a store task, no task is created anywhere,
yet the input buffer is cleared, the flag is reset, and the mode returns
to Normal. -/
theorem c10_stale_subtask_flag_noop (ext : Option Instant) (now : Instant) (app : App)
    (hsub : app.adding_subtask = true) (h : SelectionInvalid app) :
    (add_task ext now app).tasks = app.tasks ∧
    (add_task ext now app).input = [] ∧
    (add_task ext now app).adding_subtask = false ∧
    (add_task ext now app).mode = AppMode.Normal := by
  obtain hnone | ⟨idx, h1, h2⟩ | ⟨idx, sel, h1, h2, h3⟩ := h
  · simp only [add_task, add_sub_task, hsub, if_true, hnone]
    and_intros <;> first | rfl | trivial
  · simp only [add_task, add_sub_task, hsub, if_true, h1, h2]
    and_intros <;> first | rfl | trivial
  · simp only [add_task, add_sub_task, hsub, if_true, h1, h2]
    and_intros <;>
      first
        | exact modifyFirstById_of_not_any _ sel.id app.tasks h3
        | rfl
        | trivial

/-- C10 witness: a stale sub-item flag with no selection discards the
typed text but still clears the buffer, resets the flag and returns to
Normal. -/
theorem c10_stale_subtask_flag_noop_witness :
    (add_task none refNow staleSubApp).tasks = staleSubApp.tasks ∧
    (add_task none refNow staleSubApp).input = [] ∧
    (add_task none refNow staleSubApp).adding_subtask = false ∧
    (add_task none refNow staleSubApp).mode = AppMode.Normal :=
  c10_stale_subtask_flag_noop none refNow staleSubApp rfl (Or.inl rfl)

end Todo
